import Mathlib

/-!
Shallow embedding of the terminal list-editor application from `src/main.rs`.

The application state (`App`) owns an optional selection cursor into a list
of string items, a pending input buffer and the current input mode.  All
state-mutating operations of `impl App` are translated as pure functions
`App → App`; the key-event dispatcher of `main`'s loop body is translated as
`step : App → KeyCode → KeyModifiers → StepResult`.

Rust `usize` arithmetic appears only in `select_next` / `select_previous`
(`items.len() - 1`) and in `Vec::remove`.  The plain definitions below use
Lean's truncated `Nat` subtraction and the total `List.eraseIdx`; the
`…?` variants return `none` exactly where the Rust code would panic
(underflow of `len - 1` when the list is empty, `remove(n)` with
`n ≥ len`), so totality over the invariant can be stated precisely.
-/

/-- `enum Mode { Normal, Insert, Popup }` from `src/main.rs`. -/
inductive Mode where
  | Normal : Mode
  | Insert : Mode
  | Popup : Mode
deriving DecidableEq, Repr

/-- `struct App` from `src/main.rs`: optional selection index, item list,
input buffer and current mode. -/
structure App where
  selected_list_index : Option Nat
  items : List String
  input : String
  mode : Mode
deriving DecidableEq, Repr

namespace App

/-- `App::enter_insert_mode`. -/
def enter_insert_mode (s : App) : App :=
  { s with mode := Mode.Insert }

/-- `App::enter_normal_mode`. -/
def enter_normal_mode (s : App) : App :=
  { s with mode := Mode.Normal }

/-- `App::enter_popup_mode`. -/
def enter_popup_mode (s : App) : App :=
  { s with mode := Mode.Popup }

/-- `App::select_next`: wraps forward; `items.len() - 1` is `Nat`
subtraction here (the Rust `usize` subtraction underflows only when the
list is empty, which the invariant rules out). -/
def select_next (s : App) : App :=
  match s.selected_list_index with
  | some n =>
      if n ≠ s.items.length - 1 then
        { s with selected_list_index := some (n + 1) }
      else
        { s with selected_list_index := some 0 }
  | none => s

/-- `App::select_previous`: wraps backward. -/
def select_previous (s : App) : App :=
  match s.selected_list_index with
  | some n =>
      if n > 0 then
        { s with selected_list_index := some (n - 1) }
      else
        { s with selected_list_index := some (s.items.length - 1) }
  | none => s

/-- `App::push_input_to_items`: `self.items.push(self.input.drain(..).collect())`
appends the whole buffer and empties it, then the cursor is seeded at 0 if
absent, then `enter_normal_mode`. -/
def push_input_to_items (s : App) : App :=
  let s1 := { s with items := s.items ++ [s.input], input := "" }
  let s2 :=
    if s1.selected_list_index = none then
      { s1 with selected_list_index := some 0 }
    else s1
  enter_normal_mode s2

/-- `App::delete_selected_item`: removes the item at the cursor, then drops
the cursor if the list became empty, or re-clamps it via `select_previous`
when the removed index equals the new length. -/
def delete_selected_item (s : App) : App :=
  match s.selected_list_index with
  | some n =>
      let s1 := { s with items := s.items.eraseIdx n }
      if s1.items = [] then
        { s1 with selected_list_index := none }
      else if s1.items.length = n then
        select_previous s1
      else s1
  | none => s

/-- `app.input.push(c)` in the Insert-mode `Char(c)` arm of the dispatcher. -/
def append_char (s : App) (c : Char) : App :=
  { s with input := s.input.push c }

/-- `app.input.pop()` in the Insert-mode `Backspace` arm: removes the last
character, no-op on an empty buffer. -/
def backspace (s : App) : App :=
  { s with input := s.input.dropRight 1 }

/-- `impl Default for App`: pre-seeded items, cursor at 1, Normal mode. -/
def default : App :=
  { selected_list_index := some 1
    items := ["aaa", "bbb", "ccc"]
    input := ""
    mode := Mode.Normal }

/-- The cursor invariant of the data model: a present cursor is a valid
index into the item list, an absent cursor means the list is empty. -/
def Inv (s : App) : Prop :=
  match s.selected_list_index with
  | some n => n < s.items.length
  | none => s.items = []

instance (s : App) : Decidable (Inv s) := by
  unfold Inv
  cases s.selected_list_index with
  | none => exact inferInstance
  | some n => exact inferInstance

/-- Checked variant of `select_next`: `none` where the Rust `usize`
subtraction `items.len() - 1` would underflow. -/
def select_next? (s : App) : Option App :=
  match s.selected_list_index with
  | some n =>
      if s.items.length = 0 then none
      else if n ≠ s.items.length - 1 then
        some { s with selected_list_index := some (n + 1) }
      else
        some { s with selected_list_index := some 0 }
  | none => some s

/-- Checked variant of `select_previous`: the subtraction
`items.len() - 1` is only evaluated in the `n = 0` branch. -/
def select_previous? (s : App) : Option App :=
  match s.selected_list_index with
  | some n =>
      if n > 0 then
        some { s with selected_list_index := some (n - 1) }
      else if s.items.length = 0 then none
      else
        some { s with selected_list_index := some (s.items.length - 1) }
  | none => some s

/-- Checked variant of `delete_selected_item`: `none` where
`Vec::remove(n)` would panic (`n ≥ items.len()`). -/
def delete_selected_item? (s : App) : Option App :=
  match s.selected_list_index with
  | some n =>
      if s.items.length ≤ n then none
      else
        let s1 := { s with items := s.items.eraseIdx n }
        if s1.items = [] then
          some { s1 with selected_list_index := none }
        else if s1.items.length = n then
          select_previous? s1
        else some s1
  | none => some s

/-- Checked variant of `push_input_to_items`: `Vec::push`, `String::drain`
and the mode assignment have no panic site. -/
def push_input_to_items? (s : App) : Option App :=
  some (push_input_to_items s)

/-- Checked variant of `enter_insert_mode`: a pure field assignment. -/
def enter_insert_mode? (s : App) : Option App :=
  some (enter_insert_mode s)

/-- Checked variant of `enter_normal_mode`: a pure field assignment. -/
def enter_normal_mode? (s : App) : Option App :=
  some (enter_normal_mode s)

/-- Checked variant of `enter_popup_mode`: a pure field assignment. -/
def enter_popup_mode? (s : App) : Option App :=
  some (enter_popup_mode s)

/-- Checked variant of `append_char`: `String::push` has no panic site. -/
def append_char? (s : App) (c : Char) : Option App :=
  some (append_char s c)

/-- Checked variant of `backspace`: `String::pop` is total. -/
def backspace? (s : App) : Option App :=
  some (backspace s)

end App

/-- The crossterm `KeyCode` variants (the dispatcher names only `Esc`,
`Enter`, `Char` and `Backspace`; all the rest fall through to the
wildcard arms). -/
inductive KeyCode where
  | Backspace : KeyCode
  | Enter : KeyCode
  | Left : KeyCode
  | Right : KeyCode
  | Up : KeyCode
  | Down : KeyCode
  | Home : KeyCode
  | End : KeyCode
  | PageUp : KeyCode
  | PageDown : KeyCode
  | Tab : KeyCode
  | BackTab : KeyCode
  | Delete : KeyCode
  | Insert : KeyCode
  | F : Nat → KeyCode
  | Char : Char → KeyCode
  | Null : KeyCode
  | Esc : KeyCode
deriving DecidableEq, Repr

/-- The crossterm `KeyModifiers` bitset: SHIFT, CONTROL and ALT bits. -/
structure KeyModifiers where
  shift : Bool
  control : Bool
  alt : Bool
deriving DecidableEq, Repr

/-- `KeyModifiers::NONE`: the empty modifier bitset. -/
def KeyModifiers.NONE : KeyModifiers :=
  { shift := false, control := false, alt := false }

/-- Outcome of one iteration of the event loop: either the Normal-mode
`Esc` arm returns from `main` (program exit), or the loop continues with
the (possibly mutated) state. -/
inductive StepResult where
  | exit : StepResult
  | cont : App → StepResult
deriving DecidableEq, Repr

/-- The key-event dispatcher: the `match app.mode` block in `main`'s loop.
Every arm of the Rust `match (code, modifiers)` requires
`KeyModifiers::NONE`; unlisted combinations hit the wildcard `_ => {}`. -/
def step (s : App) (code : KeyCode) (modifiers : KeyModifiers) : StepResult :=
  match s.mode, code, modifiers with
  | Mode.Insert, KeyCode.Esc, ⟨false, false, false⟩ =>
      StepResult.cont (s.enter_normal_mode)
  | Mode.Insert, KeyCode.Enter, ⟨false, false, false⟩ =>
      StepResult.cont (s.push_input_to_items)
  | Mode.Insert, KeyCode.Char c, ⟨false, false, false⟩ =>
      StepResult.cont (s.append_char c)
  | Mode.Insert, KeyCode.Backspace, ⟨false, false, false⟩ =>
      StepResult.cont (s.backspace)
  | Mode.Normal, KeyCode.Esc, ⟨false, false, false⟩ =>
      StepResult.exit
  | Mode.Normal, KeyCode.Char c, ⟨false, false, false⟩ =>
      if c = 'i' then StepResult.cont (s.enter_insert_mode)
      else if c = 'j' then StepResult.cont (s.select_next)
      else if c = 'k' then StepResult.cont (s.select_previous)
      else if c = 'd' then StepResult.cont (s.delete_selected_item)
      else if c = '?' then StepResult.cont (s.enter_popup_mode)
      else StepResult.cont s
  | Mode.Popup, KeyCode.Esc, ⟨false, false, false⟩ =>
      StepResult.cont (s.enter_normal_mode)
  | Mode.Popup, KeyCode.Enter, ⟨false, false, false⟩ =>
      StepResult.cont (s.enter_normal_mode)
  | Mode.Popup, KeyCode.Char c, ⟨false, false, false⟩ =>
      if c = '?' then StepResult.cont (s.enter_normal_mode)
      else StepResult.cont s
  | _, _, _ => StepResult.cont s

/-- The (key, active-mode) combinations the dispatcher acts on: one entry
per non-wildcard arm of `step`. -/
def handled : Mode → KeyCode → Bool
  | Mode.Normal, KeyCode.Esc => true
  | Mode.Normal, KeyCode.Char c =>
      c = 'i' || c = 'j' || c = 'k' || c = 'd' || c = '?'
  | Mode.Insert, KeyCode.Esc => true
  | Mode.Insert, KeyCode.Enter => true
  | Mode.Insert, KeyCode.Char _ => true
  | Mode.Insert, KeyCode.Backspace => true
  | Mode.Popup, KeyCode.Esc => true
  | Mode.Popup, KeyCode.Enter => true
  | Mode.Popup, KeyCode.Char c => c = '?'
  | _, _ => false

example : (App.default.select_next).selected_list_index = some 2 := by decide
example : (App.default.select_next.select_next).selected_list_index = some 0 := by decide
example : App.Inv App.default := by decide

/-! ## Claim theorems -/

/-- C10: the initial state from `App::default` is pre-seeded, not empty:
items are exactly `["aaa", "bbb", "ccc"]`, the cursor is present with index
1 (not 0), the mode is Normal, the input buffer is empty, and this state
satisfies the cursor invariant. -/
theorem default_state_spec :
    App.default.items = ["aaa", "bbb", "ccc"] ∧
    App.default.items ≠ [] ∧
    App.default.selected_list_index = some 1 ∧
    App.default.selected_list_index ≠ some 0 ∧
    App.default.mode = Mode.Normal ∧
    App.default.input = "" ∧
    App.Inv App.default := by
  decide

/-- C2: on any state satisfying the invariant, `push_input_to_items`
appends the input buffer (even when empty) to the end of the item list so
the length grows by exactly 1, empties the buffer, sets the cursor to 0
exactly when it was absent (leaving it unchanged otherwise), and sets the
mode to Normal. -/
theorem push_input_to_items_spec (s : App) (h : App.Inv s) :
    (s.push_input_to_items).items = s.items ++ [s.input] ∧
    (s.push_input_to_items).items.length = s.items.length + 1 ∧
    (s.push_input_to_items).input = "" ∧
    (s.push_input_to_items).selected_list_index =
      (if s.selected_list_index = none then some 0 else s.selected_list_index) ∧
    (s.push_input_to_items).mode = Mode.Normal := by
  obtain ⟨sel, items, input, mode⟩ := s
  cases sel <;>
    simp [App.push_input_to_items, App.enter_normal_mode]

theorem push_input_to_items_spec_witness :
    App.Inv App.default ∧
    ((App.default.push_input_to_items).items
        = App.default.items ++ [App.default.input] ∧
      (App.default.push_input_to_items).items.length
        = App.default.items.length + 1 ∧
      (App.default.push_input_to_items).input = "" ∧
      (App.default.push_input_to_items).selected_list_index =
        (if App.default.selected_list_index = none then some 0
          else App.default.selected_list_index) ∧
      (App.default.push_input_to_items).mode = Mode.Normal) :=
  ⟨by decide, push_input_to_items_spec App.default (by decide)⟩

/-- C4: `select_next` is a no-op when the cursor is absent; with a present
cursor `n` on a list of length `len` it moves the cursor to
`(n + 1) % len` and changes no other field. -/
theorem select_next_spec (s : App) (n : Nat) (h : App.Inv s) :
    (s.selected_list_index = none → s.select_next = s) ∧
    (s.selected_list_index = some n →
      (s.select_next).selected_list_index = some ((n + 1) % s.items.length) ∧
      (s.select_next).items = s.items ∧
      (s.select_next).input = s.input ∧
      (s.select_next).mode = s.mode) := by
  obtain ⟨sel, items, input, mode⟩ := s
  cases sel with
  | none => simp [App.select_next]
  | some m =>
      simp only [App.Inv] at h
      refine ⟨by simp, ?_⟩
      intro hm
      have hmn : m = n := by injection hm
      subst hmn
      simp only [App.select_next]
      split_ifs with hn
      · refine ⟨?_, rfl, rfl, rfl⟩
        show some (m + 1) = some ((m + 1) % items.length)
        rw [Nat.mod_eq_of_lt (by omega)]
      · refine ⟨?_, rfl, rfl, rfl⟩
        show some 0 = some ((m + 1) % items.length)
        have hlen : m + 1 = items.length := by omega
        rw [hlen, Nat.mod_self]

theorem select_next_spec_witness :
    App.Inv App.default ∧
    ((App.default.selected_list_index = none →
        App.default.select_next = App.default) ∧
      (App.default.selected_list_index = some 1 →
        (App.default.select_next).selected_list_index
            = some ((1 + 1) % App.default.items.length) ∧
        (App.default.select_next).items = App.default.items ∧
        (App.default.select_next).input = App.default.input ∧
        (App.default.select_next).mode = App.default.mode)) :=
  ⟨by decide, select_next_spec App.default 1 (by decide)⟩

/-- C5: `select_previous` is a no-op when the cursor is absent; with a
present cursor `n` on a list of length `len` it moves the cursor to
`(n + len - 1) % len` (wrapping from 0 to the last index) and changes no
other field. -/
theorem select_previous_spec (s : App) (n : Nat) (h : App.Inv s) :
    (s.selected_list_index = none → s.select_previous = s) ∧
    (s.selected_list_index = some n →
      (s.select_previous).selected_list_index
          = some ((n + s.items.length - 1) % s.items.length) ∧
      (s.select_previous).items = s.items ∧
      (s.select_previous).input = s.input ∧
      (s.select_previous).mode = s.mode) := by
  obtain ⟨sel, items, input, mode⟩ := s
  cases sel with
  | none => simp [App.select_previous]
  | some m =>
      simp only [App.Inv] at h
      refine ⟨by simp, ?_⟩
      intro hm
      have hmn : m = n := by injection hm
      subst hmn
      simp only [App.select_previous]
      split_ifs with hn
      · refine ⟨?_, rfl, rfl, rfl⟩
        show some (m - 1) = some ((m + items.length - 1) % items.length)
        have h1 : m + items.length - 1 = (m - 1) + items.length := by omega
        rw [h1, Nat.add_mod_right, Nat.mod_eq_of_lt (by omega)]
      · refine ⟨?_, rfl, rfl, rfl⟩
        show some (items.length - 1)
            = some ((m + items.length - 1) % items.length)
        have h0 : m = 0 := by omega
        subst h0
        rw [Nat.zero_add, Nat.mod_eq_of_lt (by omega)]

theorem select_previous_spec_witness :
    App.Inv App.default ∧
    ((App.default.selected_list_index = none →
        App.default.select_previous = App.default) ∧
      (App.default.selected_list_index = some 1 →
        (App.default.select_previous).selected_list_index
            = some ((1 + App.default.items.length - 1)
                % App.default.items.length) ∧
        (App.default.select_previous).items = App.default.items ∧
        (App.default.select_previous).input = App.default.input ∧
        (App.default.select_previous).mode = App.default.mode)) :=
  ⟨by decide, select_previous_spec App.default 1 (by decide)⟩

/-- C9: in Insert mode, Esc with no modifiers only changes the mode, to
Normal: the input buffer, item list and cursor are exactly preserved, and
the program does not exit. -/
theorem insert_esc_spec (s : App) (h : s.mode = Mode.Insert) :
    step s KeyCode.Esc KeyModifiers.NONE
        = StepResult.cont (s.enter_normal_mode) ∧
    (s.enter_normal_mode).mode = Mode.Normal ∧
    (s.enter_normal_mode).input = s.input ∧
    (s.enter_normal_mode).items = s.items ∧
    (s.enter_normal_mode).selected_list_index = s.selected_list_index := by
  obtain ⟨sel, items, input, mode⟩ := s
  simp only at h
  subst h
  exact ⟨rfl, rfl, rfl, rfl, rfl⟩

theorem insert_esc_spec_witness :
    (⟨some 0, ["aaa"], "draft", Mode.Insert⟩ : App).mode = Mode.Insert ∧
    (step (⟨some 0, ["aaa"], "draft", Mode.Insert⟩ : App) KeyCode.Esc
          KeyModifiers.NONE
        = StepResult.cont
            ((⟨some 0, ["aaa"], "draft", Mode.Insert⟩ : App).enter_normal_mode) ∧
      ((⟨some 0, ["aaa"], "draft", Mode.Insert⟩ : App).enter_normal_mode).mode
          = Mode.Normal ∧
      ((⟨some 0, ["aaa"], "draft", Mode.Insert⟩ : App).enter_normal_mode).input
          = "draft" ∧
      ((⟨some 0, ["aaa"], "draft", Mode.Insert⟩ : App).enter_normal_mode).items
          = ["aaa"] ∧
      ((⟨some 0, ["aaa"], "draft", Mode.Insert⟩ : App).enter_normal_mode).selected_list_index
          = some 0) :=
  ⟨rfl, insert_esc_spec (⟨some 0, ["aaa"], "draft", Mode.Insert⟩ : App) rfl⟩

/-! ## Invariant preservation helpers -/

theorem inv_select_next (s : App) (h : App.Inv s) : App.Inv s.select_next := by
  obtain ⟨sel, items, input, mode⟩ := s
  cases sel with
  | none => exact h
  | some n =>
      simp only [App.Inv] at h
      simp only [App.select_next]
      split_ifs with h1
      · simp only [App.Inv]
        omega
      · simp only [App.Inv]
        omega

theorem inv_select_previous (s : App) (h : App.Inv s) :
    App.Inv s.select_previous := by
  obtain ⟨sel, items, input, mode⟩ := s
  cases sel with
  | none => exact h
  | some n =>
      simp only [App.Inv] at h
      simp only [App.select_previous]
      split_ifs with h1
      · simp only [App.Inv]
        omega
      · simp only [App.Inv]
        omega

theorem inv_push_input_to_items (s : App) (h : App.Inv s) :
    App.Inv s.push_input_to_items := by
  obtain ⟨sel, items, input, mode⟩ := s
  cases sel with
  | none =>
      simp [App.push_input_to_items, App.enter_normal_mode, App.Inv]
  | some n =>
      simp only [App.Inv] at h
      simp [App.push_input_to_items, App.enter_normal_mode, App.Inv]
      omega

theorem inv_delete_selected_item (s : App) (h : App.Inv s) :
    App.Inv s.delete_selected_item := by
  obtain ⟨sel, items, input, mode⟩ := s
  cases sel with
  | none => exact h
  | some n =>
      simp only [App.Inv] at h
      have hlen : (items.eraseIdx n).length + 1 = items.length :=
        List.length_eraseIdx_add_one h
      simp only [App.delete_selected_item]
      split_ifs with h1 h2
      · simp only [App.Inv]
        exact h1
      · have hpos : 0 < (items.eraseIdx n).length := List.length_pos.mpr h1
        simp only [App.select_previous]
        rw [if_pos (by omega)]
        simp only [App.Inv]
        omega
      · have hpos : 0 < (items.eraseIdx n).length := List.length_pos.mpr h1
        simp only [App.Inv]
        omega

/-- C1: every Application State operation (`select_next`,
`select_previous`, `push_input_to_items`, `delete_selected_item` and the
three mode entries) preserves the cursor invariant: a present cursor is a
valid index in `[0, len)` of a non-empty list, an absent cursor means the
list is empty. -/
theorem ops_preserve_inv (s : App) (h : App.Inv s) :
    App.Inv s.select_next ∧ App.Inv s.select_previous ∧
    App.Inv s.push_input_to_items ∧ App.Inv s.delete_selected_item ∧
    App.Inv s.enter_insert_mode ∧ App.Inv s.enter_normal_mode ∧
    App.Inv s.enter_popup_mode := by
  refine ⟨inv_select_next s h, inv_select_previous s h,
    inv_push_input_to_items s h, inv_delete_selected_item s h, ?_, ?_, ?_⟩ <;>
  · obtain ⟨sel, items, input, mode⟩ := s
    exact h

theorem ops_preserve_inv_witness :
    App.Inv App.default ∧
    (App.Inv App.default.select_next ∧
      App.Inv App.default.select_previous ∧
      App.Inv App.default.push_input_to_items ∧
      App.Inv App.default.delete_selected_item ∧
      App.Inv App.default.enter_insert_mode ∧
      App.Inv App.default.enter_normal_mode ∧
      App.Inv App.default.enter_popup_mode) :=
  ⟨by decide, ops_preserve_inv App.default (by decide)⟩

/-- C3: `delete_selected_item` is a no-op when the cursor is absent;
otherwise it removes exactly the item at the cursor index and afterwards:
an emptied list drops the cursor; a removed index equal to the new length
re-clamps the cursor to the new last index (`len - 2` of the original
length); any other removal keeps the same numeric cursor.  Input buffer
and mode are untouched. -/
theorem delete_selected_item_spec (s : App) (n : Nat) (h : App.Inv s) :
    (s.selected_list_index = none → s.delete_selected_item = s) ∧
    (s.selected_list_index = some n →
      (s.delete_selected_item).items = s.items.eraseIdx n ∧
      (s.delete_selected_item).input = s.input ∧
      (s.delete_selected_item).mode = s.mode ∧
      ((s.delete_selected_item).items = [] →
        (s.delete_selected_item).selected_list_index = none) ∧
      ((s.delete_selected_item).items ≠ [] →
        ((s.delete_selected_item).items.length = n →
          (s.delete_selected_item).selected_list_index
              = some (s.items.length - 2)) ∧
        ((s.delete_selected_item).items.length ≠ n →
          (s.delete_selected_item).selected_list_index = some n))) := by
  obtain ⟨sel, items, input, mode⟩ := s
  cases sel with
  | none => exact ⟨fun _ => rfl, by simp⟩
  | some m =>
      refine ⟨by simp, ?_⟩
      intro hm
      have hmn : m = n := by injection hm
      subst hmn
      simp only [App.Inv] at h
      have hlen : (items.eraseIdx m).length + 1 = items.length :=
        List.length_eraseIdx_add_one h
      simp only [App.delete_selected_item]
      split_ifs with h1 h2
      · exact ⟨rfl, rfl, rfl, fun _ => rfl, fun hne => absurd h1 hne⟩
      · have hpos : 0 < (items.eraseIdx m).length := List.length_pos.mpr h1
        simp only [App.select_previous]
        rw [if_pos (by omega)]
        refine ⟨rfl, rfl, rfl, fun habs => absurd habs h1, fun _ => ⟨?_, ?_⟩⟩
        · intro _
          show some (m - 1) = some (items.length - 2)
          have he : m - 1 = items.length - 2 := by omega
          rw [he]
        · intro h3
          exact absurd h2 h3
      · refine ⟨rfl, rfl, rfl, fun habs => absurd habs h1,
          fun _ => ⟨fun h3 => absurd h3 h2, fun _ => rfl⟩⟩

theorem delete_selected_item_spec_witness :
    App.Inv App.default ∧
    ((App.default.selected_list_index = none →
        App.default.delete_selected_item = App.default) ∧
      (App.default.selected_list_index = some 1 →
        (App.default.delete_selected_item).items
            = App.default.items.eraseIdx 1 ∧
        (App.default.delete_selected_item).input = App.default.input ∧
        (App.default.delete_selected_item).mode = App.default.mode ∧
        ((App.default.delete_selected_item).items = [] →
          (App.default.delete_selected_item).selected_list_index = none) ∧
        ((App.default.delete_selected_item).items ≠ [] →
          ((App.default.delete_selected_item).items.length = 1 →
            (App.default.delete_selected_item).selected_list_index
                = some (App.default.items.length - 2)) ∧
          ((App.default.delete_selected_item).items.length ≠ 1 →
            (App.default.delete_selected_item).selected_list_index
                = some 1)))) :=
  ⟨by decide, delete_selected_item_spec App.default 1 (by decide)⟩

/-! ## Cyclic navigation -/

theorem select_next_iter (items : List String) (input : String) (mode : Mode)
    (n : Nat) (hn : n < items.length) :
    ∀ k, App.select_next^[k] ⟨some n, items, input, mode⟩
      = ⟨some ((n + k) % items.length), items, input, mode⟩ := by
  intro k
  induction k with
  | zero =>
      rw [Function.iterate_zero_apply, Nat.add_zero, Nat.mod_eq_of_lt hn]
  | succ k ih =>
      rw [Function.iterate_succ_apply', ih]
      have hlen0 : 0 < items.length := by omega
      have hmod : (n + k) % items.length < items.length :=
        Nat.mod_lt _ hlen0
      simp only [App.select_next]
      split_ifs with h1
      · have he : (n + (k + 1)) % items.length
            = (n + k) % items.length + 1 := by
          have h4 : n + (k + 1) = (n + k) + 1 := rfl
          rw [h4, ← Nat.mod_add_mod, Nat.mod_eq_of_lt (by omega)]
        rw [he]
      · have he : (n + (k + 1)) % items.length = 0 := by
          have h4 : n + (k + 1) = (n + k) + 1 := rfl
          have h5 : (n + k) % items.length + 1 = items.length := by omega
          rw [h4, ← Nat.mod_add_mod, h5, Nat.mod_self]
        rw [he]

/-- C6: on a state satisfying the invariant with a non-empty item list of
length `len` and a present cursor, applying `select_next` `len` times in
succession returns the cursor to its original value. -/
theorem select_next_cycle (s : App) (n : Nat) (h : App.Inv s)
    (hne : s.items ≠ []) (hc : s.selected_list_index = some n) :
    (App.select_next^[s.items.length] s).selected_list_index
      = s.selected_list_index := by
  obtain ⟨sel, items, input, mode⟩ := s
  have hsel : sel = some n := hc
  subst hsel
  simp only [App.Inv] at h
  show (App.select_next^[items.length]
      (⟨some n, items, input, mode⟩ : App)).selected_list_index = some n
  rw [select_next_iter items input mode n h items.length]
  show some ((n + items.length) % items.length) = some n
  rw [Nat.add_mod_right, Nat.mod_eq_of_lt h]

theorem select_next_cycle_witness :
    App.Inv App.default ∧ App.default.items ≠ [] ∧
    App.default.selected_list_index = some 1 ∧
    (App.select_next^[App.default.items.length]
        App.default).selected_list_index
      = App.default.selected_list_index :=
  ⟨by decide, by decide, rfl,
    select_next_cycle App.default 1 (by decide) (by decide) rfl⟩

/-- C7: over the invariant every operation is total: the checked variants
(which return `none` exactly where the Rust code would panic — the
`items.len() - 1` underflows in `select_next` / `select_previous` and an
out-of-bounds `Vec::remove`) always return `some` of the plain result. -/
theorem ops_total (s : App) (c : Char) (h : App.Inv s) :
    s.select_next? = some s.select_next ∧
    s.select_previous? = some s.select_previous ∧
    s.delete_selected_item? = some s.delete_selected_item ∧
    s.push_input_to_items? = some s.push_input_to_items ∧
    s.enter_insert_mode? = some s.enter_insert_mode ∧
    s.enter_normal_mode? = some s.enter_normal_mode ∧
    s.enter_popup_mode? = some s.enter_popup_mode ∧
    s.append_char? c = some (s.append_char c) ∧
    s.backspace? = some s.backspace := by
  obtain ⟨sel, items, input, mode⟩ := s
  refine ⟨?_, ?_, ?_, rfl, rfl, rfl, rfl, rfl, rfl⟩
  · cases sel with
    | none => rfl
    | some n =>
        simp only [App.Inv] at h
        simp only [App.select_next?, App.select_next]
        rw [if_neg (by omega)]
        split_ifs <;> rfl
  · cases sel with
    | none => rfl
    | some n =>
        simp only [App.Inv] at h
        simp only [App.select_previous?, App.select_previous]
        split_ifs with h1 h2
        · rfl
        · exact absurd h (by omega)
        · rfl
  · cases sel with
    | none => rfl
    | some n =>
        simp only [App.Inv] at h
        have hlen : (items.eraseIdx n).length + 1 = items.length :=
          List.length_eraseIdx_add_one h
        simp only [App.delete_selected_item?, App.delete_selected_item]
        rw [if_neg (by omega)]
        split_ifs with h1 h2
        · rfl
        · have hpos : 0 < (items.eraseIdx n).length := List.length_pos.mpr h1
          simp only [App.select_previous?, App.select_previous]
          split_ifs with h3 h4
          · rfl
          · exact absurd hpos (by omega)
          · rfl
        · rfl

theorem ops_total_witness :
    App.Inv App.default ∧
    (App.default.select_next? = some App.default.select_next ∧
      App.default.select_previous? = some App.default.select_previous ∧
      App.default.delete_selected_item?
          = some App.default.delete_selected_item ∧
      App.default.push_input_to_items?
          = some App.default.push_input_to_items ∧
      App.default.enter_insert_mode? = some App.default.enter_insert_mode ∧
      App.default.enter_normal_mode? = some App.default.enter_normal_mode ∧
      App.default.enter_popup_mode? = some App.default.enter_popup_mode ∧
      App.default.append_char? 'x' = some (App.default.append_char 'x') ∧
      App.default.backspace? = some App.default.backspace) :=
  ⟨by decide, ops_total App.default 'x' (by decide)⟩

/-- C8: a key event whose modifier bitset is non-empty, or whose
(key, active-mode) combination is not in the dispatch table, leaves the
whole state unchanged and does not exit the program. -/
theorem unlisted_keys_ignored (s : App) (code : KeyCode) (m : KeyModifiers)
    (h : m ≠ KeyModifiers.NONE ∨ handled s.mode code = false) :
    step s code m = StepResult.cont s := by
  obtain ⟨sel, items, input, mode⟩ := s
  obtain ⟨ms, mc, ma⟩ := m
  rcases h with h | h
  · cases ms <;> cases mc <;> cases ma <;>
      first
        | exact absurd rfl h
        | (cases mode <;> cases code <;> rfl)
  · cases ms <;> cases mc <;> cases ma <;>
      first
        | (cases mode <;> cases code <;> rfl)
        | (cases mode <;> cases code <;> simp_all [handled, step])

theorem unlisted_keys_ignored_witness :
    (KeyModifiers.NONE ≠ KeyModifiers.NONE ∨
      handled App.default.mode (KeyCode.Char 'x') = false) ∧
    step App.default (KeyCode.Char 'x') KeyModifiers.NONE
      = StepResult.cont App.default :=
  ⟨Or.inr (by decide),
    unlisted_keys_ignored App.default (KeyCode.Char 'x') KeyModifiers.NONE
      (Or.inr (by decide))⟩
